import Mathlib

/-!
Verification development for the studio_tech ingestion pipeline and query
engine.  Each stage of the pipeline (`pdf_to_md.py`, `md_to_chunks.py`,
`chunks_to_embeddings.py`, `embeddings_to_weaviate.py`) and the chat
application (`app.py`) is shallowly embedded below: pure fragments become
Lean functions, external calls become explicit outcome parameters, and the
stateful per-page retry loop becomes a fuel-indexed step function.
-/

/- ===== Shared association-list (Python dict) helpers ===== -/

/-- First binding for key `k`, mirroring Python dict lookup on the
insertion-ordered key/value list. -/
def assocGet {κ β : Type} [DecidableEq κ] (r : List (κ × β)) (k : κ) : Option β :=
  match r with
  | [] => none
  | (k', v) :: rest => if k' = k then some v else assocGet rest k

/-- Python dict assignment `d[k] = v`: replace the binding in place if the
key exists, otherwise append it. -/
def assocSet {κ β : Type} [DecidableEq κ] (r : List (κ × β)) (k : κ) (v : β) :
    List (κ × β) :=
  match r with
  | [] => [(k, v)]
  | (k', v') :: rest =>
    if k' = k then (k, v) :: rest else (k', v') :: assocSet rest k v

/-- Python `k in d`. -/
def hasKey {κ β : Type} [DecidableEq κ] (r : List (κ × β)) (k : κ) : Bool :=
  (assocGet r k).isSome

/-- Keys of the dict, in insertion order. -/
def assocKeys {κ β : Type} (r : List (κ × β)) : List κ :=
  r.map Prod.fst

/- ===== Shared character/string helpers (Python str methods) ===== -/

/-- Python `str.lower()` restricted to the basic-latin mapping Lean's
`Char.toLower` implements; applied pointwise to the character list. -/
def pyLower (s : List Char) : List Char :=
  s.map Char.toLower

/-- Python `str.strip()`: drop leading and trailing whitespace. -/
def trimChars (s : List Char) : List Char :=
  ((s.dropWhile Char.isWhitespace).reverse.dropWhile Char.isWhitespace).reverse

/-- `leadsWith pat s` is true when `pat` occurs at the very start of `s`. -/
def leadsWith : List Char → List Char → Bool
  | [], _ => true
  | _ :: _, [] => false
  | a :: as, b :: bs => a = b && leadsWith as bs

/-- Split at the first occurrence of `sep`: returns the text before it and
the text after it, or `none` when `sep` does not occur. -/
def splitAtFirst (sep : List Char) : List Char → Option (List Char × List Char)
  | [] => none
  | c :: rest =>
    if leadsWith sep (c :: rest) then some ([], (c :: rest).drop sep.length)
    else
      match splitAtFirst sep rest with
      | some (pre, post) => some (c :: pre, post)
      | none => none

/-- Model of `re.search(f"<tag>(.*?)</tag>", text, re.DOTALL)`: group 1 of
the leftmost, shortest match — the text between the first opening tag and
the first closing tag after it. -/
def reSearchGroup (openT closeT text : List Char) : Option (List Char) :=
  match splitAtFirst openT text with
  | none => none
  | some (_, after) =>
    match splitAtFirst closeT after with
    | none => none
    | some (grp, _) => some grp

/-- Opening XML-like tag for a tag name. -/
def openTag (tag : List Char) : List Char :=
  '<' :: (tag ++ ['>'])

/-- Closing XML-like tag for a tag name. -/
def closeTag (tag : List Char) : List Char :=
  '<' :: '/' :: (tag ++ ['>'])

/-- Python `str.splitlines()` modelled as splitting on the newline
character (carriage returns are handled by the strip applied to every
line at each call site). -/
def splitLinesChars : List Char → List (List Char)
  | [] => [[]]
  | c :: rest =>
    if c = '\n' then [] :: splitLinesChars rest
    else
      match splitLinesChars rest with
      | [] => [[c]]
      | l :: ls => (c :: l) :: ls

/-- Python `",".join(ks)`. -/
def joinComma (ks : List (List Char)) : List Char :=
  List.intercalate [','] ks

/- ===== Segmenter: utils/pdf_to_md.py, per-page conversion loop ===== -/

/-- Status recorded in a per-page audit entry of the results artifact. -/
inductive PageStatus where
  | success
  | warning
  | error
deriving DecidableEq, Repr

/-- One entry appended to `pdf_results['pages']`. -/
structure PageRecord where
  page_number : Nat
  status : PageStatus
  retry_count : Nat
  payload : String
deriving DecidableEq, Repr

/-- `max_retries = 3` in `pdf_to_md.main`. -/
def maxRetries : Nat := 3

/-- State of the while-loop handling one page: the running retry counter,
the success flag, the number of conversion calls made so far, the audit
records appended for this page, and this page's contribution to the
assembled markdown. -/
structure PageLoopState where
  retryCount : Nat
  success : Bool
  calls : Nat
  records : List PageRecord
  markdown : List Char
deriving DecidableEq, Repr

/-- Loop entry state for each page. -/
def initPageLoop : PageLoopState :=
  { retryCount := 0, success := false, calls := 0, records := [], markdown := [] }

/-- The `<markdown_output>` group extracted from a conversion response. -/
def markdownGroup (text : List Char) : Option (List Char) :=
  reSearchGroup (openTag ("markdown_output".data)) (closeTag ("markdown_output".data)) text

/-- `while retry_count < max_retries and not success`. -/
def pageLoopGuard (s : PageLoopState) : Bool :=
  decide (s.retryCount < maxRetries) && !s.success

/-- One iteration of the loop body for page `pageNum`, given the outcome of
this iteration's conversion call.  An empty response body raises inside the
`try`, so it is handled by the same API-error `except` branch.  In the
API-error branch with `retry_count == max_retries - 1` the source appends
the error record but increments neither `retry_count` nor `success`. -/
def pageAttempt (pageNum : Nat) (result : Except String (List Char))
    (s : PageLoopState) : PageLoopState :=
  match result with
  | .ok text =>
    if text = [] then
      if s.retryCount = maxRetries - 1 then
        { s with calls := s.calls + 1,
                 records := s.records ++
                   [⟨pageNum + 1, .error, s.retryCount, "Empty response received from Claude API"⟩] }
      else
        { s with calls := s.calls + 1, retryCount := s.retryCount + 1 }
    else
      match markdownGroup text with
      | some grp =>
        { s with calls := s.calls + 1, success := true,
                 records := s.records ++ [⟨pageNum + 1, .success, s.retryCount, ⟨text⟩⟩],
                 markdown := s.markdown ++ grp ++ ['\n'] }
      | none =>
        if s.retryCount = maxRetries - 1 then
          { s with calls := s.calls + 1, retryCount := s.retryCount + 1,
                   records := s.records ++ [⟨pageNum + 1, .warning, s.retryCount, ⟨text⟩⟩] }
        else
          { s with calls := s.calls + 1, retryCount := s.retryCount + 1 }
  | .error msg =>
    if s.retryCount = maxRetries - 1 then
      { s with calls := s.calls + 1,
               records := s.records ++ [⟨pageNum + 1, .error, s.retryCount, msg⟩] }
    else
      { s with calls := s.calls + 1, retryCount := s.retryCount + 1 }

/-- Run the per-page while-loop for at most `fuel` iterations; `oracle i`
is the outcome of the `i`-th conversion call for this page. -/
def runPageLoop (pageNum : Nat) (oracle : Nat → Except String (List Char)) :
    Nat → PageLoopState → PageLoopState
  | 0, s => s
  | fuel + 1, s =>
    if pageLoopGuard s then
      runPageLoop pageNum oracle fuel (pageAttempt pageNum (oracle s.calls) s)
    else s

/-- Conversion-call oracle that raises a transport error on every attempt. -/
def alwaysApiError : Nat → Except String (List Char) :=
  fun _ => .error "API connection error"

/-- The state the loop is stuck in once the retry counter has reached
`max_retries - 1` under persistent API errors. -/
def stuckState (calls : Nat) (records : List PageRecord) : PageLoopState :=
  { retryCount := maxRetries - 1, success := false, calls := calls,
    records := records, markdown := [] }

/- ===== Chunker/Classifier: utils/md_to_chunks.py ===== -/

/-- Outcome of one enrichment call issued by `situate_context`. -/
inductive EnrichResult where
  | ok (ctx : String)
  | err (msg : String)
deriving DecidableEq, Repr

/-- `situate_context`: returns the model's context text; any exception is
caught inside the function and the sentinel string is returned instead. -/
def situate_context (r : EnrichResult) : String :=
  match r with
  | .ok ctx => ctx
  | .err _ => "Error generating context"

/-- A structural element produced by the markdown partition (category,
literal text, and the raw tabular-markup rendering from its metadata). -/
structure Element where
  category : String
  text : String
  text_as_html : String
deriving DecidableEq, Repr

/-- The chunk JSON written by `process_document`; `raw_table` is present
only on records produced by the dedicated table pass.  The generated UUID
and timestamp are parameters of the pass (they come from `uuid.uuid4()`
and `datetime.now()`). -/
structure ChunkData where
  id : String
  source_file : String
  category : String
  content : String
  contextualization : String
  raw_table : Option String
  created_at : String
deriving DecidableEq, Repr

/-- Loop over a list carrying the ordinal of the processed item, used to
index the per-item uuid/timestamp/enrichment-outcome streams. -/
def mapWithIndex {α β : Type} (f : Nat → α → β) : Nat → List α → List β
  | _, [] => []
  | i, a :: as => f i a :: mapWithIndex f (i + 1) as

/-- `tables`: the elements whose category is `"Table"`, pulled out before
the generic chunking pass. -/
def tableElements (elements : List Element) : List Element :=
  elements.filter (fun e => e.category = "Table")

/-- The dedicated table pass: one persisted chunk per table element, with
the table category, the table's literal text, and its raw tabular-markup
rendering.  `ids`, `enrich` and `created` are the per-table streams of
generated uuids, enrichment-call outcomes and timestamps. -/
def tablePass (md_file : String) (ids : Nat → String) (enrich : Nat → EnrichResult)
    (created : Nat → String) (elements : List Element) : List ChunkData :=
  mapWithIndex (fun i t =>
    { id := ids i, source_file := md_file, category := "Table", content := t.text,
      contextualization := situate_context (enrich i),
      raw_table := some t.text_as_html, created_at := created i })
    0 (tableElements elements)

/-- The generic chunking pass over the output of `chunk_by_title`: any unit
still categorized `"Table"` or `"TableChunk"` is skipped (`continue`), every
other unit is persisted with its category, text and contextualization. -/
def genericPass (md_file : String) (ids : Nat → String) (enrich : Nat → EnrichResult)
    (created : Nat → String) (chunks : List Element) : List ChunkData :=
  mapWithIndex (fun i c =>
    { id := ids i, source_file := md_file, category := c.category, content := c.text,
      contextualization := situate_context (enrich i),
      raw_table := none, created_at := created i })
    0 (chunks.filter (fun c => ¬(c.category = "Table" ∨ c.category = "TableChunk")))

/-- The chunk records persisted by `process_document` for one document:
the table pass over the parsed elements, then the generic pass over the
`chunk_by_title` output (`chunksFromTitle`, produced by the external
chunking library and therefore a parameter here). -/
def process_document (md_file : String)
    (idsT : Nat → String) (enrichT : Nat → EnrichResult) (createdT : Nat → String)
    (idsC : Nat → String) (enrichC : Nat → EnrichResult) (createdC : Nat → String)
    (elements : List Element) (chunksFromTitle : List Element) : List ChunkData :=
  tablePass md_file idsT enrichT createdT elements ++
    genericPass md_file idsC enrichC createdC chunksFromTitle

/- ===== Embedder: utils/chunks_to_embeddings.py ===== -/

/-- A JSON field value of a chunk record.  Embedding vectors are lists of
floats in the source; their numeric content is never computed on, so a
vector is modelled as an opaque token. -/
inductive JVal where
  | str (s : String)
  | vecTok (n : Nat)
deriving DecidableEq, Repr

/-- A chunk record: the insertion-ordered JSON object read from a chunk
file. -/
abbrev ChunkRec : Type := List (String × JVal)

/-- Rendering of a JSON value inside an f-string. -/
def jvalStr (v : JVal) : String :=
  match v with
  | .str s => s
  | .vecTok n => toString n

/-- Outcome of the embedding call for one chunk (after the internal
rate-limit retry loop). -/
inductive EmbedOutcome where
  | ok (tok : Nat)
  | invalidResponse
  | rateLimitExhausted
  | apiError
deriving DecidableEq, Repr

/-- Whether the embedding service is called for this record: the call site
sits after the required-fields check, so records missing `content` or
`contextualization` never reach it. -/
def embedCalled (data : ChunkRec) : Bool :=
  hasKey data "content" && hasKey data "contextualization"

/-- Per-file logic of the Embedder's main loop for a regular chunk JSON
file: skip (with a warning) when `content` or `contextualization` is
missing; otherwise embed, and on success add the vector under the reserved
`embeddings` field and write the result under `{id}.json`, falling back to
the original filename when the record has no `id` field.  `none` means no
output file is written for this record.  `embedVec` projects the vector out
of a call outcome. -/
def embedVec : EmbedOutcome → Option Nat
  | .ok tok => some tok
  | _ => none

def embedFile (data : ChunkRec) (outcome : EmbedOutcome) (origName : String) :
    Option (String × ChunkRec) :=
  if hasKey data "content" && hasKey data "contextualization" then
    (embedVec outcome).map (fun tok =>
      (if hasKey data "id" then
          jvalStr ((assocGet data "id").getD (JVal.str "")) ++ ".json"
        else origName,
       assocSet data "embeddings" (JVal.vecTok tok)))
  else none

/- ===== Indexer: utils/embeddings_to_weaviate.py ===== -/

/-- The per-document `metadata.json` object.  A field is `none` when the
key is absent (`metadata.get(k, "")` then falls back to the empty string);
`keywords` is `some` only when the key is present with a list value. -/
structure DocMetadata where
  brand : Option (List Char)
  model : Option (List Char)
  product_type : Option (List Char)
  keywords : Option (List (List Char))
deriving DecidableEq, Repr

/-- The properties stored with each index record. -/
structure IndexProps where
  content : JVal
  doc_type : String
  brand : List Char
  model : List Char
  product_type : List Char
  keywords : Option (List Char)
deriving DecidableEq, Repr

/-- The `properties` dict built by `load_embeddings` before insertion:
brand/model/product_type are lowercased (missing keys default to the empty
string), and keywords, when present as a list, are comma-joined and then
lowercased. -/
def mkProperties (metadata : DocMetadata) (content : JVal) : IndexProps :=
  { content := content,
    doc_type := "chunk",
    brand := pyLower (metadata.brand.getD []),
    model := pyLower (metadata.model.getD []),
    product_type := pyLower (metadata.product_type.getD []),
    keywords := metadata.keywords.map (fun ks => pyLower (joinComma ks)) }

/-- A record as persisted in the index store: explicit vector plus
properties. -/
structure StoredObject where
  vector : JVal
  properties : IndexProps
deriving DecidableEq, Repr

/-- The index store's contents, keyed by uuid. -/
abbrev Store : Type := List (JVal × StoredObject)

/-- Modelled from the spec: the index store's insert operation (the
vector-store itself is an external collaborator, specified only at its
interface).  Insertion is keyed by the chunk's uuid; inserting an existing
uuid again overwrites the existing record's vector and properties rather
than creating a duplicate entry. -/
def storeInsert (st : Store) (uuid : JVal) (obj : StoredObject) : Store :=
  assocSet st uuid obj

/-- The fields a record must carry before the store call is made. -/
def requiredKeys : List String := ["id", "embeddings", "content"]

/-- Python `all(key in data for key in ks)`. -/
def hasAllKeys (data : ChunkRec) (ks : List String) : Bool :=
  ks.all (fun k => hasKey data k)

/-- The uuid a record is inserted under. -/
def fileId (data : ChunkRec) : JVal :=
  (assocGet data "id").getD (JVal.str "")

/-- Whether the store has a record under this uuid. -/
abbrev hasObj (st : Store) (k : JVal) : Bool :=
  hasKey st k

/-- Per-file logic of `load_embeddings`: reject the record before the store
call when any of `{id, embeddings, content}` is missing; otherwise insert
it keyed by its `id`, with lowercased metadata properties. -/
def idxProcessFile (metadata : DocMetadata) (st : Store) (data : ChunkRec) : Store :=
  if hasAllKeys data requiredKeys then
    storeInsert st (fileId data)
      { vector := (assocGet data "embeddings").getD (JVal.str ""),
        properties := mkProperties metadata ((assocGet data "content").getD (JVal.str "")) }
  else st

/-- One document subdirectory of the embedded output set: its metadata
(`none` when `load_metadata` returned the empty falsy dict, which makes the
loader skip the whole subdirectory) and its chunk record files. -/
structure DocDir where
  metadata : Option DocMetadata
  files : List ChunkRec

/-- Process one subdirectory. -/
def loadDir (st : Store) (d : DocDir) : Store :=
  match d.metadata with
  | none => st
  | some m => d.files.foldl (idxProcessFile m) st

/-- `load_embeddings`: process every subdirectory of the embedded output
set against the store. -/
def load_embeddings (st : Store) (dirs : List DocDir) : Store :=
  dirs.foldl loadDir st

/- ===== Query engine: src/app.py ===== -/

/-- The dict built by `get_filters` from the entity-extraction response;
it is also the shape of the per-session `entities` state, since the chat
handler assigns the filters dict to it wholesale. -/
structure Filters where
  brands : List (List Char)
  models : List (List Char)
  reasoning : List Char
deriving DecidableEq, Repr

/-- `extract_tag_value` (singular): the stripped group of the first
`<tag>...</tag>` occurrence, or the empty value when the tag is missing or
the group is the literal `none` up to case and surrounding whitespace. -/
def extract_tag_value (text tag : List Char) : List Char :=
  match reSearchGroup (openTag tag) (closeTag tag) text with
  | none => []
  | some grp =>
    let v := trimChars grp
    if pyLower v = "none".data then [] else v

/-- `extract_tag_values` (plural): as above, but the group is split into
lines, each line stripped, and blank lines dropped; the literal `none`
(any case, stripped) yields the empty list. -/
def extract_tag_values (text tag : List Char) : List (List Char) :=
  match reSearchGroup (openTag tag) (closeTag tag) text with
  | none => []
  | some grp =>
    let v := trimChars grp
    if pyLower v = "none".data then []
    else ((splitLinesChars v).map trimChars).filter (fun l => ¬(l = []))

/-- `get_filters`: builds the filters dict from the brands/models/reasoning
tags of the extraction response (the aggregate sampling of known
brand/model values and the extraction call itself are external; the
response text is the parameter). -/
def get_filters (llmResponse : List Char) : Filters :=
  { brands := extract_tag_values llmResponse ("brands".data),
    models := extract_tag_values llmResponse ("models".data),
    reasoning := extract_tag_value llmResponse ("reasoning".data) }

/-- A store-side filter predicate pushed into the hybrid query. -/
inductive QueryFilter where
  | brandContainsAny (vals : List (List Char))
  | modelContainsAny (vals : List (List Char))
deriving DecidableEq, Repr

/-- The `filterset` list built in `get_documentation`: a brand
contains-any predicate when the brand filter list is non-empty, then a
model contains-any predicate when the model filter list is non-empty. -/
def mkFilterset (filters : Filters) : List QueryFilter :=
  (if filters.brands.length > 0 then [QueryFilter.brandContainsAny filters.brands] else []) ++
    (if filters.models.length > 0 then [QueryFilter.modelContainsAny filters.models] else [])

/-- An object returned by the store for a hybrid query. -/
structure RetrievedObject where
  uuid : String
  content : String
deriving DecidableEq, Repr

/-- Modelled from the spec: the store's hybrid vector+keyword query
returns its fused ranking for the request (`ranking` maps the optional
filter predicate to the candidate ranking), truncated to the result-count
limit. -/
def hybridQuery (ranking : Option (List QueryFilter) → List RetrievedObject)
    (fs : Option (List QueryFilter)) (limit : Nat) : List RetrievedObject :=
  (ranking fs).take limit

/-- `get_documentation`: build the filterset; query with
`Filter.any_of(filterset)` and `limit=10` when it is non-empty, and with no
filters and `limit=10` otherwise; then fold the returned objects into the
uuid→content documents dict. -/
def get_documentation (ranking : Option (List QueryFilter) → List RetrievedObject)
    (filters : Filters) : List (String × String) :=
  let filterset := mkFilterset filters
  let objs :=
    if ¬(filterset = []) then hybridQuery ranking (some filterset) 10
    else hybridQuery ranking none 10
  objs.foldl (fun d o => assocSet d o.uuid o.content) []

/-- The `limit` argument `get_documentation` passes to the store on each
branch: `10` on the filtered branch and `10` on the unfiltered branch. -/
def get_documentation_limit (filters : Filters) : Nat :=
  if ¬(mkFilterset filters = []) then 10 else 10

/-- Which retrieval path a turn takes. -/
inductive RetrievalPath where
  | skipped
  | filteredQuery (fs : List QueryFilter)
  | unfilteredQuery
deriving DecidableEq, Repr

/-- The query branch taken inside `get_documentation` for these filters. -/
def get_documentation_path (filters : Filters) : RetrievalPath :=
  if ¬(mkFilterset filters = []) then .filteredQuery (mkFilterset filters)
  else .unfilteredQuery

/-- `len(filters["brands"]) > 0 or len(filters["models"]) > 0` in the chat
handler. -/
def filtersPresent (f : Filters) : Bool :=
  decide (f.brands.length > 0) || decide (f.models.length > 0)

/-- `entities["brands"] or entities["models"]` (Python list truthiness). -/
def entitiesTruthy (e : Filters) : Bool :=
  !e.brands.isEmpty || !e.models.isEmpty

/-- The session entity state set by `start_chat`. -/
def initialEntities : Filters :=
  { brands := [], models := [], reasoning := [] }

/-- The session-state update of the chat handler: a turn whose extraction
is non-empty replaces the running entities wholesale; an empty extraction
leaves them unchanged. -/
def updateEntities (e f : Filters) : Filters :=
  if filtersPresent f then f else e

/-- One turn of the chat handler given the extraction response for the
user's message: update the session entities, then either query
documentation with the updated entities or skip retrieval entirely.
Returns the new session state and the retrieval path taken. -/
def chatTurn (e : Filters) (llmResponse : List Char) : Filters × RetrievalPath :=
  let filters := get_filters llmResponse
  let e' := updateEntities e filters
  if entitiesTruthy e' then (e', get_documentation_path e') else (e', .skipped)

/-- The documents dict the turn passes to answer composition: the
retrieval result when the session entities are non-empty, and the empty
dict otherwise (retrieval is not invoked at all in that case). -/
def chatTurnDocs (ranking : Option (List QueryFilter) → List RetrievedObject)
    (e : Filters) (llmResponse : List Char) : List (String × String) :=
  let e' := updateEntities e (get_filters llmResponse)
  if entitiesTruthy e' then get_documentation ranking e' else []

/-- The session entity state after a sequence of turns with the given
extraction responses. -/
def runConversation (e : Filters) (resps : List (List Char)) : Filters :=
  resps.foldl (fun acc r => (chatTurn acc r).1) e

/- ===== Theorems ===== -/

theorem pageLoop_stuck_step (pageNum n calls : Nat) (records : List PageRecord) :
    pageAttempt pageNum (alwaysApiError n) (stuckState calls records) =
      stuckState (calls + 1)
        (records ++ [⟨pageNum + 1, .error, maxRetries - 1, "API connection error"⟩]) := by
  rfl

theorem pageLoop_stuck_guard (calls : Nat) (records : List PageRecord) :
    pageLoopGuard (stuckState calls records) = true := by
  simp [pageLoopGuard, stuckState, maxRetries]

theorem runPageLoop_stuck (pageNum : Nat) :
    ∀ (fuel calls : Nat) (records : List PageRecord),
      runPageLoop pageNum alwaysApiError fuel (stuckState calls records) =
        stuckState (calls + fuel)
          (records ++ List.replicate fuel
            ⟨pageNum + 1, .error, maxRetries - 1, "API connection error"⟩) := by
  intro fuel
  induction fuel with
  | zero => intro calls records; simp [runPageLoop]
  | succ n ih =>
    intro calls records
    rw [runPageLoop, if_pos (pageLoop_stuck_guard calls records),
        pageLoop_stuck_step, ih]
    have hc : calls + 1 + n = calls + (n + 1) := by omega
    simp only [List.append_assoc, List.replicate_succ, List.singleton_append]
    rw [hc]

theorem runPageLoop_alwaysError_closed_form (pageNum : Nat) (fuel : Nat) :
    runPageLoop pageNum alwaysApiError (fuel + 2) initPageLoop =
      stuckState (fuel + 2)
        (List.replicate fuel ⟨pageNum + 1, .error, maxRetries - 1, "API connection error"⟩) := by
  have h2 : runPageLoop pageNum alwaysApiError (fuel + 2) initPageLoop =
      runPageLoop pageNum alwaysApiError fuel (stuckState 2 []) := rfl
  rw [h2, runPageLoop_stuck]
  simp [stuckState]
  omega

/-- C1: the claim says that a page whose conversion call raises transport
errors on every attempt is retried up to 3 attempts, recorded exactly once
with status `error`, and that the per-page loop terminates so processing
continues to the next page.  On the code this fails: in the API-error
branch at the retry bound neither `retry_count` nor `success` is updated,
so under persistent transport errors the loop guard holds after every
number of iterations (the loop never terminates, so page 3 of a 3-page
document is never reached), and from the third iteration on one more
`status="error"` audit record is appended per iteration, so the page is
recorded more than once. -/
theorem c1_segmenter_error_retry_loop_diverges (pageNum fuel : Nat) :
    pageLoopGuard (runPageLoop pageNum alwaysApiError fuel initPageLoop) = true ∧
    (runPageLoop pageNum alwaysApiError fuel initPageLoop).success = false ∧
    (runPageLoop pageNum alwaysApiError fuel initPageLoop).records =
      List.replicate (fuel - 2)
        ⟨pageNum + 1, PageStatus.error, maxRetries - 1, "API connection error"⟩ := by
  match fuel with
  | 0 =>
    refine ⟨?_, rfl, rfl⟩
    simp [pageLoopGuard, runPageLoop, initPageLoop, maxRetries]
  | 1 =>
    refine ⟨?_, ?_, ?_⟩ <;>
      simp [runPageLoop, pageLoopGuard, initPageLoop, maxRetries, pageAttempt, alwaysApiError]
  | n + 2 =>
    rw [runPageLoop_alwaysError_closed_form]
    refine ⟨pageLoop_stuck_guard _ _, rfl, ?_⟩
    simp [stuckState]

/- ===== Association-list lemmas ===== -/

theorem assocGet_assocSet_self {κ β : Type} [DecidableEq κ]
    (r : List (κ × β)) (k : κ) (v : β) :
    assocGet (assocSet r k v) k = some v := by
  induction r with
  | nil => simp [assocSet, assocGet]
  | cons hd tl ih =>
    obtain ⟨k', v'⟩ := hd
    by_cases h : k' = k
    · simp [assocSet, assocGet, h]
    · simp [assocSet, assocGet, h, ih]

theorem assocGet_assocSet_ne {κ β : Type} [DecidableEq κ]
    (r : List (κ × β)) (k k' : κ) (v : β) (h : ¬(k' = k)) :
    assocGet (assocSet r k v) k' = assocGet r k' := by
  induction r with
  | nil =>
    simp only [assocSet, assocGet]
    rw [if_neg (fun he => h he.symm)]
  | cons hd tl ih =>
    obtain ⟨k₀, v₀⟩ := hd
    by_cases h0 : k₀ = k
    · subst h0
      simp only [assocSet, if_pos rfl, assocGet]
      rw [if_neg (fun he => h he.symm), if_neg (fun he => h he.symm)]
    · simp only [assocSet, if_neg h0, assocGet]
      by_cases h1 : k₀ = k'
      · rw [if_pos h1, if_pos h1]
      · rw [if_neg h1, if_neg h1, ih]

theorem assocKeys_assocSet {κ β : Type} [DecidableEq κ]
    (r : List (κ × β)) (k : κ) (v : β) :
    assocKeys (assocSet r k v) =
      if hasKey r k then assocKeys r else assocKeys r ++ [k] := by
  induction r with
  | nil => simp [assocSet, assocKeys, hasKey, assocGet]
  | cons hd tl ih =>
    obtain ⟨k₀, v₀⟩ := hd
    by_cases h0 : k₀ = k
    · subst h0
      simp [assocSet, assocKeys, hasKey, assocGet]
    · have hkey : hasKey ((k₀, v₀) :: tl) k = hasKey tl k := by
        simp [hasKey, assocGet, h0]
      simp only [assocSet, if_neg h0, assocKeys, List.map_cons, hkey]
      by_cases hmem : hasKey tl k
      · rw [if_pos hmem]
        have hih := ih
        rw [if_pos hmem] at hih
        simp only [assocKeys] at hih
        rw [hih]
      · rw [if_neg hmem]
        have hih := ih
        rw [if_neg hmem] at hih
        simp only [assocKeys] at hih
        rw [hih]
        simp

theorem length_assocSet {κ β : Type} [DecidableEq κ]
    (r : List (κ × β)) (k : κ) (v : β) :
    (assocSet r k v).length =
      if hasKey r k then r.length else r.length + 1 := by
  have h1 : (assocSet r k v).length = (assocKeys (assocSet r k v)).length := by
    simp [assocKeys]
  have h2 : r.length = (assocKeys r).length := by simp [assocKeys]
  rw [h1, assocKeys_assocSet]
  by_cases hm : hasKey r k
  · simp [hm, h2]
  · simp [hm, h2]

theorem hasKey_assocSet {κ β : Type} [DecidableEq κ]
    (r : List (κ × β)) (k k' : κ) (v : β) :
    hasKey (assocSet r k v) k' = (decide (k' = k) || hasKey r k') := by
  by_cases h : k' = k
  · subst h
    simp [hasKey, assocGet_assocSet_self]
  · simp [hasKey, assocGet_assocSet_ne r k k' v h, h]

theorem length_foldl_assocSet_le {κ β α : Type} [DecidableEq κ]
    (key : α → κ) (val : α → β) :
    ∀ (l : List α) (d : List (κ × β)),
      (l.foldl (fun acc o => assocSet acc (key o) (val o)) d).length ≤
        d.length + l.length := by
  intro l
  induction l with
  | nil => intro d; simp
  | cons hd tl ih =>
    intro d
    simp only [List.foldl_cons]
    calc (tl.foldl (fun acc o => assocSet acc (key o) (val o))
            (assocSet d (key hd) (val hd))).length
        ≤ (assocSet d (key hd) (val hd)).length + tl.length := ih _
      _ ≤ d.length + (tl.length + 1) := by
          rw [length_assocSet]
          by_cases h : hasKey d (key hd)
          · rw [if_pos h]; omega
          · rw [if_neg h]; omega
      _ = d.length + (hd :: tl).length := by simp

/- ===== mapWithIndex lemmas ===== -/

theorem mapWithIndex_length {α β : Type} (f : Nat → α → β) :
    ∀ (s : Nat) (l : List α), (mapWithIndex f s l).length = l.length := by
  intro s l
  induction l generalizing s with
  | nil => simp [mapWithIndex]
  | cons hd tl ih => simp [mapWithIndex, ih]

theorem mapWithIndex_get {α β : Type} (f : Nat → α → β) :
    ∀ (l : List α) (s j : Nat) (h : j < l.length),
      (mapWithIndex f s l).get ⟨j, by rw [mapWithIndex_length]; exact h⟩ =
        f (s + j) (l.get ⟨j, h⟩) := by
  intro l
  induction l with
  | nil => intro s j h; exact absurd h (by simp)
  | cons hd tl ih =>
    intro s j h
    match j with
    | 0 => simp [mapWithIndex]
    | j' + 1 =>
      have h' : j' < tl.length := by simpa using h
      have := ih (s + 1) j' h'
      simp only [mapWithIndex, List.get]
      rw [show s + 1 + j' = s + (j' + 1) by omega] at this
      exact this

theorem mem_mapWithIndex {α β : Type} (f : Nat → α → β) :
    ∀ (l : List α) (s : Nat) (b : β), b ∈ mapWithIndex f s l →
      ∃ (i : Nat) (a : α), a ∈ l ∧ b = f i a := by
  intro l
  induction l with
  | nil => intro s b hb; simp [mapWithIndex] at hb
  | cons hd tl ih =>
    intro s b hb
    simp only [mapWithIndex, List.mem_cons] at hb
    cases hb with
    | inl h => exact ⟨s, hd, by simp, h⟩
    | inr h =>
      obtain ⟨i, a, ha, hb⟩ := ih (s + 1) b h
      exact ⟨i, a, by simp [ha], hb⟩

theorem mapWithIndex_getq {α β : Type} (f : Nat → α → β) :
    ∀ (l : List α) (s j : Nat),
      (mapWithIndex f s l).get? j = (l.get? j).map (f (s + j)) := by
  intro l
  induction l with
  | nil => intro s j; simp [mapWithIndex]
  | cons hd tl ih =>
    intro s j
    match j with
    | 0 => simp [mapWithIndex]
    | j' + 1 =>
      simp only [mapWithIndex, List.get?_cons_succ]
      rw [ih (s + 1) j', show s + 1 + j' = s + (j' + 1) by omega]

/- ===== Chunker theorems ===== -/

theorem tablePass_mem_category (md_file : String) (ids : Nat → String)
    (enrich : Nat → EnrichResult) (created : Nat → String) (elements : List Element)
    (r : ChunkData) (hr : r ∈ tablePass md_file ids enrich created elements) :
    r.category = "Table" := by
  obtain ⟨i, a, _, hra⟩ := mem_mapWithIndex _ _ _ _ hr
  rw [hra]

theorem genericPass_mem_category (md_file : String) (ids : Nat → String)
    (enrich : Nat → EnrichResult) (created : Nat → String) (chunks : List Element)
    (r : ChunkData) (hr : r ∈ genericPass md_file ids enrich created chunks) :
    ¬(r.category = "Table" ∨ r.category = "TableChunk") := by
  obtain ⟨i, a, ha, hra⟩ := mem_mapWithIndex _ _ _ _ hr
  have hq := (List.mem_filter.mp ha).2
  rw [hra]
  simpa using hq

/-- C6: a chunk whose enrichment call raises is persisted all the same:
every unit of each pass produces exactly one persisted record carrying the
unit's content and category, whose contextualization is the enrichment
result — with `situate_context` mapping any in-call exception to the
sentinel placeholder string — so the batch size is independent of the
enrichment outcomes and no chunk is dropped. -/
theorem c6_enrichment_failure_never_drops_chunk
    (md_file : String) (idsT idsC createdT createdC : Nat → String)
    (enrichT enrichC : Nat → EnrichResult)
    (elements chunksFromTitle : List Element) :
    (process_document md_file idsT enrichT createdT idsC enrichC createdC
        elements chunksFromTitle).length =
      (tableElements elements).length +
        (chunksFromTitle.filter
          (fun c => ¬(c.category = "Table" ∨ c.category = "TableChunk"))).length ∧
    (∀ j : Nat,
      (genericPass md_file idsC enrichC createdC chunksFromTitle).get? j =
        ((chunksFromTitle.filter
            (fun c => ¬(c.category = "Table" ∨ c.category = "TableChunk"))).get? j).map
          (fun c =>
            { id := idsC j, source_file := md_file, category := c.category,
              content := c.text, contextualization := situate_context (enrichC j),
              raw_table := none, created_at := createdC j })) ∧
    (∀ j : Nat,
      (tablePass md_file idsT enrichT createdT elements).get? j =
        ((tableElements elements).get? j).map
          (fun t =>
            { id := idsT j, source_file := md_file, category := "Table",
              content := t.text, contextualization := situate_context (enrichT j),
              raw_table := some t.text_as_html, created_at := createdT j })) ∧
    (∀ m : String, situate_context (EnrichResult.err m) = "Error generating context") := by
  refine ⟨?_, ?_, ?_, fun _ => rfl⟩
  · simp [process_document, tablePass, genericPass, mapWithIndex_length]
  · intro j
    rw [genericPass, mapWithIndex_getq]
    simp
  · intro j
    rw [tablePass, mapWithIndex_getq]
    simp

/-- C8: each table element yields exactly one persisted chunk with the
table category (carrying the table's literal text and its raw
tabular-markup rendering) from the dedicated table pass; every unit of the
generic pass whose category is `Table` or `TableChunk` is dropped; hence a
document with zero table elements yields only non-table chunk
categories. -/
theorem c8_table_pass_exactly_once
    (md_file : String) (idsT idsC createdT createdC : Nat → String)
    (enrichT enrichC : Nat → EnrichResult)
    (elements chunksFromTitle : List Element) :
    ((process_document md_file idsT enrichT createdT idsC enrichC createdC
        elements chunksFromTitle).filter (fun r => r.category = "Table")).length =
      (tableElements elements).length ∧
    (∀ j : Nat,
      (tablePass md_file idsT enrichT createdT elements).get? j =
        ((tableElements elements).get? j).map
          (fun t =>
            { id := idsT j, source_file := md_file, category := "Table",
              content := t.text, contextualization := situate_context (enrichT j),
              raw_table := some t.text_as_html, created_at := createdT j })) ∧
    (∀ r ∈ genericPass md_file idsC enrichC createdC chunksFromTitle,
      ¬(r.category = "Table" ∨ r.category = "TableChunk")) ∧
    ((∀ e ∈ elements, ¬(e.category = "Table")) →
      ∀ r ∈ process_document md_file idsT enrichT createdT idsC enrichC createdC
          elements chunksFromTitle,
        ¬(r.category = "Table" ∨ r.category = "TableChunk")) := by
  refine ⟨?_, ?_, ?_, ?_⟩
  · rw [process_document, List.filter_append]
    have h1 : (tablePass md_file idsT enrichT createdT elements).filter
        (fun r => r.category = "Table") = tablePass md_file idsT enrichT createdT elements := by
      rw [List.filter_eq_self]
      intro r hr
      simpa using tablePass_mem_category md_file idsT enrichT createdT elements r hr
    have h2 : (genericPass md_file idsC enrichC createdC chunksFromTitle).filter
        (fun r => r.category = "Table") = [] := by
      rw [List.filter_eq_nil_iff]
      intro r hr
      have := genericPass_mem_category md_file idsC enrichC createdC chunksFromTitle r hr
      simp only [not_or] at this
      simpa using this.1
    rw [h1, h2, List.append_nil, tablePass, mapWithIndex_length]
  · intro j
    rw [tablePass, mapWithIndex_getq]
    simp
  · exact genericPass_mem_category md_file idsC enrichC createdC chunksFromTitle
  · intro hzero r hr
    rw [process_document] at hr
    rcases List.mem_append.mp hr with h | h
    · exfalso
      have htab : tableElements elements = [] := by
        rw [tableElements, List.filter_eq_nil_iff]
        intro e he
        simpa using hzero e he
      rw [tablePass, htab] at h
      simp [mapWithIndex] at h
    · exact genericPass_mem_category md_file idsC enrichC createdC chunksFromTitle r h

/- ===== Embedder theorems ===== -/

/-- C9: a chunk record carrying both `content` and `contextualization` is
embedded, and the written output record is the input record with the
vector added under the reserved `embeddings` field — every other field is
preserved unchanged; a record missing either required field is skipped
(no output is written for it) and the embedding service is never called
for it. -/
theorem c9_embedder_frame
    (data : ChunkRec) (tok : Nat) (origName : String) (outcome : EmbedOutcome) :
    (hasKey data "content" = true → hasKey data "contextualization" = true →
      (∃ fname : String,
        embedFile data (EmbedOutcome.ok tok) origName =
          some (fname, assocSet data "embeddings" (JVal.vecTok tok))) ∧
      assocGet (assocSet data "embeddings" (JVal.vecTok tok)) "embeddings" =
        some (JVal.vecTok tok) ∧
      (∀ k : String, ¬(k = "embeddings") →
        assocGet (assocSet data "embeddings" (JVal.vecTok tok)) k = assocGet data k)) ∧
    ((hasKey data "content" = false ∨ hasKey data "contextualization" = false) →
      embedFile data outcome origName = none ∧ embedCalled data = false) := by
  constructor
  · intro hc hx
    refine ⟨?_, assocGet_assocSet_self data "embeddings" (JVal.vecTok tok), ?_⟩
    · refine ⟨if hasKey data "id" then
          jvalStr ((assocGet data "id").getD (JVal.str "")) ++ ".json" else origName, ?_⟩
      rw [embedFile, if_pos (by rw [hc, hx]; rfl)]
      rfl
    · intro k hk
      exact assocGet_assocSet_ne data "embeddings" k (JVal.vecTok tok) hk
  · intro hmiss
    have hcond : (hasKey data "content" && hasKey data "contextualization") = false := by
      rcases hmiss with h | h <;> simp [h]
    constructor
    · rw [embedFile, if_neg (by rw [hcond]; simp)]
    · rw [embedCalled]
      exact hcond

/-- C10: a chunk record missing only the `id` field is not skipped by the
Embedder — it is embedded and written under its original filename — and
the written record then fails the Indexer's required-fields check
(`{id, embeddings, content}`), so the store is left unchanged: the record
is never inserted. -/
theorem c10_missing_id_embedded_but_rejected_by_indexer
    (data : ChunkRec) (tok : Nat) (origName : String)
    (metadata : DocMetadata) (st : Store)
    (hc : hasKey data "content" = true)
    (hx : hasKey data "contextualization" = true)
    (hid : hasKey data "id" = false) :
    embedFile data (EmbedOutcome.ok tok) origName =
      some (origName, assocSet data "embeddings" (JVal.vecTok tok)) ∧
    embedCalled data = true ∧
    hasAllKeys (assocSet data "embeddings" (JVal.vecTok tok)) requiredKeys = false ∧
    idxProcessFile metadata st (assocSet data "embeddings" (JVal.vecTok tok)) = st := by
  have hid' : hasKey (assocSet data "embeddings" (JVal.vecTok tok)) "id" = false := by
    rw [hasKey_assocSet]
    simp [hid]
  have hall : hasAllKeys (assocSet data "embeddings" (JVal.vecTok tok)) requiredKeys = false := by
    rw [hasAllKeys, requiredKeys]
    simp only [List.all_cons, List.all_nil, Bool.and_true]
    rw [hid']
    simp
  refine ⟨?_, ?_, hall, ?_⟩
  · rw [embedFile, if_pos (by rw [hc, hx]; rfl)]
    rw [if_neg (by rw [hid]; simp)]
    rfl
  · rw [embedCalled, hc, hx]
    rfl
  · rw [idxProcessFile, if_neg (by rw [hall]; simp)]

/- ===== Indexer theorems ===== -/

theorem hasObj_storeInsert (st : Store) (k k' : JVal) (obj : StoredObject) :
    hasObj (storeInsert st k obj) k' = (decide (k' = k) || hasObj st k') :=
  hasKey_assocSet st k k' obj

theorem hasObj_idxProcessFile_mono (m : DocMetadata) (st : Store) (d : ChunkRec)
    (k : JVal) (h : hasObj st k = true) :
    hasObj (idxProcessFile m st d) k = true := by
  rw [idxProcessFile]
  by_cases hv : hasAllKeys d requiredKeys
  · rw [if_pos hv, hasObj_storeInsert, h]
    simp
  · rw [if_neg hv]; exact h

theorem idxProcessFile_no_growth (m : DocMetadata) (st : Store) (d : ChunkRec)
    (h : hasAllKeys d requiredKeys = true → hasObj st (fileId d) = true) :
    (idxProcessFile m st d).length = st.length ∧
      ∀ k, hasObj (idxProcessFile m st d) k = hasObj st k := by
  rw [idxProcessFile]
  by_cases hv : hasAllKeys d requiredKeys
  · rw [if_pos hv]
    have hobj := h hv
    constructor
    · rw [storeInsert, length_assocSet, if_pos hobj]
    · intro k
      rw [hasObj_storeInsert]
      by_cases hk : k = fileId d
      · subst hk; simp [hobj]
      · simp [hk]
  · rw [if_neg hv]
    exact ⟨rfl, fun _ => rfl⟩

theorem foldl_idx_mono (m : DocMetadata) :
    ∀ (files : List ChunkRec) (st : Store) (k : JVal), hasObj st k = true →
      hasObj (files.foldl (idxProcessFile m) st) k = true := by
  intro files
  induction files with
  | nil => intro st k h; exact h
  | cons hd tl ih =>
    intro st k h
    simp only [List.foldl_cons]
    exact ih _ k (hasObj_idxProcessFile_mono m st hd k h)

theorem foldl_idx_inserts (m : DocMetadata) :
    ∀ (files : List ChunkRec) (st : Store) (d : ChunkRec), d ∈ files →
      hasAllKeys d requiredKeys = true →
      hasObj (files.foldl (idxProcessFile m) st) (fileId d) = true := by
  intro files
  induction files with
  | nil => intro st d hd; simp at hd
  | cons hd tl ih =>
    intro st d hmem hv
    simp only [List.foldl_cons]
    rcases List.mem_cons.mp hmem with he | he
    · subst he
      apply foldl_idx_mono
      rw [idxProcessFile, if_pos hv, hasObj_storeInsert]
      simp
    · exact ih _ d he hv

theorem foldl_idx_no_growth (m : DocMetadata) :
    ∀ (files : List ChunkRec) (st : Store),
      (∀ d ∈ files, hasAllKeys d requiredKeys = true → hasObj st (fileId d) = true) →
      ((files.foldl (idxProcessFile m) st).length = st.length ∧
        ∀ k, hasObj (files.foldl (idxProcessFile m) st) k = hasObj st k) := by
  intro files
  induction files with
  | nil => intro st _; exact ⟨rfl, fun _ => rfl⟩
  | cons hd tl ih =>
    intro st hcov
    simp only [List.foldl_cons]
    have hhd := idxProcessFile_no_growth m st hd (hcov hd (by simp))
    have htl := ih (idxProcessFile m st hd) (by
      intro d hd' hv
      rw [hhd.2]
      exact hcov d (by simp [hd']) hv)
    refine ⟨by rw [htl.1, hhd.1], ?_⟩
    intro k
    rw [htl.2, hhd.2]

theorem loadDir_mono (st : Store) (d : DocDir) (k : JVal) (h : hasObj st k = true) :
    hasObj (loadDir st d) k = true := by
  rw [loadDir]
  match hm : d.metadata with
  | none => exact h
  | some m => exact foldl_idx_mono m d.files st k h

theorem load_mono :
    ∀ (dirs : List DocDir) (st : Store) (k : JVal), hasObj st k = true →
      hasObj (load_embeddings st dirs) k = true := by
  intro dirs
  induction dirs with
  | nil => intro st k h; exact h
  | cons hd tl ih =>
    intro st k h
    simp only [load_embeddings, List.foldl_cons]
    exact ih _ k (loadDir_mono st hd k h)

theorem load_inserts :
    ∀ (dirs : List DocDir) (st : Store) (d : DocDir) (m : DocMetadata) (f : ChunkRec),
      d ∈ dirs → d.metadata = some m → f ∈ d.files →
      hasAllKeys f requiredKeys = true →
      hasObj (load_embeddings st dirs) (fileId f) = true := by
  intro dirs
  induction dirs with
  | nil => intro st d m f hd; simp at hd
  | cons hd tl ih =>
    intro st d m f hmem hmeta hf hv
    simp only [load_embeddings, List.foldl_cons]
    rcases List.mem_cons.mp hmem with he | he
    · subst he
      have : hasObj (loadDir st d) (fileId f) = true := by
        rw [loadDir, hmeta]
        exact foldl_idx_inserts m d.files st f hf hv
      exact load_mono tl (loadDir st d) (fileId f) this
    · exact ih (loadDir st hd) d m f he hmeta hf hv

theorem load_no_growth :
    ∀ (dirs : List DocDir) (st : Store),
      (∀ d ∈ dirs, ∀ m : DocMetadata, d.metadata = some m →
        ∀ f ∈ d.files, hasAllKeys f requiredKeys = true →
          hasObj st (fileId f) = true) →
      ((load_embeddings st dirs).length = st.length ∧
        ∀ k, hasObj (load_embeddings st dirs) k = hasObj st k) := by
  intro dirs
  induction dirs with
  | nil => intro st _; exact ⟨rfl, fun _ => rfl⟩
  | cons hd tl ih =>
    intro st hcov
    have hhd : (loadDir st hd).length = st.length ∧
        ∀ k, hasObj (loadDir st hd) k = hasObj st k := by
      rw [loadDir]
      match hm : hd.metadata with
      | none => exact ⟨rfl, fun _ => rfl⟩
      | some m =>
        exact foldl_idx_no_growth m hd.files st
          (fun f hf hv => hcov hd (by simp) m hm f hf hv)
    have htl := ih (loadDir st hd) (by
      intro d hd' m hm f hf hv
      rw [hhd.2]
      exact hcov d (by simp [hd']) m hm f hf hv)
    have hstep : load_embeddings st (hd :: tl) = load_embeddings (loadDir st hd) tl := rfl
    rw [hstep]
    exact ⟨by rw [htl.1, hhd.1], fun k => by rw [htl.2, hhd.2]⟩

/-- C2: insertion is keyed by the chunk's uuid, and inserting an existing
uuid overwrites the record's vector and properties in place rather than
creating a duplicate entry; consequently running the Indexer a second time
over the same embedded output set leaves the record count unchanged.  (The
vector store itself is an external collaborator; its keyed insert is
modelled from the spec's interface contract as `storeInsert`.) -/
theorem c2_indexer_insert_idempotent (st : Store) (dirs : List DocDir) :
    (∀ (st' : Store) (k : JVal) (obj : StoredObject), hasObj st' k = true →
      ((storeInsert st' k obj).length = st'.length ∧
        assocGet (storeInsert st' k obj) k = some obj)) ∧
    (load_embeddings (load_embeddings st dirs) dirs).length =
      (load_embeddings st dirs).length := by
  constructor
  · intro st' k obj h
    exact ⟨by rw [storeInsert, length_assocSet, if_pos h],
      assocGet_assocSet_self st' k obj⟩
  · exact (load_no_growth dirs (load_embeddings st dirs)
      (fun d hd m hm f hf hv => load_inserts dirs st d m f hd hm hf hv)).1

/- ===== Lowercase-normalization theorems ===== -/

theorem char_toLower_idem (c : Char) : c.toLower.toLower = c.toLower := by
  unfold Char.toLower
  by_cases h : c.toNat ≥ 65 ∧ c.toNat ≤ 90
  · obtain ⟨h1, h2⟩ := h
    simp only [h1, h2, and_self, if_pos, true_and]
    set n := c.toNat with hn
    interval_cases n <;> decide
  · simp only [h, if_neg, if_false]

theorem pyLower_idem (s : List Char) : pyLower (pyLower s) = pyLower s := by
  simp only [pyLower, List.map_map]
  exact List.map_congr_left (fun c _ => char_toLower_idem c)

/-- C7: every record the Indexer stores has brand, model and product_type
lowercased, and its keywords value, when present, comma-joined and
lowercased — for every possible mixed-case metadata input.  Lowercase is
expressed as being a fixed point of `pyLower`. -/
theorem c7_stored_properties_lowercase (metadata : DocMetadata) (content : JVal) :
    pyLower (mkProperties metadata content).brand = (mkProperties metadata content).brand ∧
    pyLower (mkProperties metadata content).model = (mkProperties metadata content).model ∧
    pyLower (mkProperties metadata content).product_type =
      (mkProperties metadata content).product_type ∧
    (mkProperties metadata content).brand = pyLower (metadata.brand.getD []) ∧
    (mkProperties metadata content).model = pyLower (metadata.model.getD []) ∧
    (mkProperties metadata content).product_type = pyLower (metadata.product_type.getD []) ∧
    (∀ ks : List (List Char), metadata.keywords = some ks →
      (mkProperties metadata content).keywords = some (pyLower (joinComma ks)) ∧
      pyLower (pyLower (joinComma ks)) = pyLower (joinComma ks)) := by
  refine ⟨pyLower_idem _, pyLower_idem _, pyLower_idem _, rfl, rfl, rfl, ?_⟩
  intro ks hks
  constructor
  · rw [mkProperties]
    simp [hks]
  · exact pyLower_idem _

/- ===== Query-engine theorems ===== -/

/-- C3 (amended): the claim's two distinct limits do not exist in the
code — both the filtered and the unfiltered branch of `get_documentation`
pass the same result-count limit `10` to the store, so retrieval with a
non-empty filter set returns at most 10 records and retrieval with an
empty filter set also returns at most 10 (not 5) records. -/
theorem c3_both_retrieval_limits_are_ten
    (filters : Filters) (ranking : Option (List QueryFilter) → List RetrievedObject) :
    get_documentation_limit filters = 10 ∧
    (get_documentation ranking filters).length ≤ 10 := by
  constructor
  · rw [get_documentation_limit]
    by_cases h : mkFilterset filters = [] <;> simp [h]
  · rw [get_documentation]
    have hobjs : ∀ objs : List RetrievedObject,
        (objs.foldl (fun d o => assocSet d o.uuid o.content) []).length ≤ objs.length := by
      intro objs
      have := length_foldl_assocSet_le (fun o : RetrievedObject => o.uuid)
        (fun o : RetrievedObject => o.content) objs []
      simpa using this
    by_cases h : mkFilterset filters = []
    · simp only [h, not_true_eq_false, if_false]
      calc ((hybridQuery ranking none 10).foldl (fun d o => assocSet d o.uuid o.content) []).length
          ≤ (hybridQuery ranking none 10).length := hobjs _
        _ ≤ 10 := by rw [hybridQuery]; exact List.length_take_le _ _
    · simp only [h, not_false_eq_true, if_true]
      calc ((hybridQuery ranking (some (mkFilterset filters)) 10).foldl
              (fun d o => assocSet d o.uuid o.content) []).length
          ≤ (hybridQuery ranking (some (mkFilterset filters)) 10).length := hobjs _
        _ ≤ 10 := by rw [hybridQuery]; exact List.length_take_le _ _

/-- C3 counterexample: with an empty filter set and a store ranking of six
candidates, `get_documentation` returns six documents, so unfiltered
retrieval is not bounded by the claimed narrower limit of 5. -/
theorem c3_counterexample_unfiltered_returns_six :
    (get_documentation
        (fun _ => [⟨"u1", "c1"⟩, ⟨"u2", "c2"⟩, ⟨"u3", "c3"⟩,
                   ⟨"u4", "c4"⟩, ⟨"u5", "c5"⟩, ⟨"u6", "c6"⟩])
        { brands := [], models := [], reasoning := [] }).length = 6 ∧
    ¬((6 : Nat) ≤ 5) := by
  constructor
  · rfl
  · decide

theorem chatTurn_fst (e : Filters) (r : List Char) :
    (chatTurn e r).1 = updateEntities e (get_filters r) := by
  simp only [chatTurn]
  by_cases h : entitiesTruthy (updateEntities e (get_filters r))
  · rw [if_pos h]
  · rw [if_neg h]

theorem filtersPresent_eq_entitiesTruthy (f : Filters) :
    filtersPresent f = entitiesTruthy f := by
  obtain ⟨bs, ms, rs⟩ := f
  cases bs <;> cases ms <;> simp [filtersPresent, entitiesTruthy]

theorem runConversation_all_empty (e : Filters) :
    ∀ resps : List (List Char),
      (∀ r' ∈ resps, filtersPresent (get_filters r') = false) →
      runConversation e resps = e := by
  intro resps
  induction resps generalizing e with
  | nil => intro _; rfl
  | cons hd tl ih =>
    intro hall
    have hstep : runConversation e (hd :: tl) = runConversation ((chatTurn e hd).1) tl := rfl
    rw [hstep, chatTurn_fst, updateEntities, if_neg (by rw [hall hd (by simp)]; simp)]
    exact ih e (fun r' hr' => hall r' (by simp [hr']))

/-- C4: a turn reached without any non-empty extraction on it or any prior
turn never invokes retrieval and passes the empty document set to answer
composition; and the session entity state follows the replace policy: a
non-empty extraction replaces the running entity sets entirely, an empty
extraction leaves them unchanged, and a non-empty state can never become
empty again. -/
theorem c4_entity_gate_and_replace_policy
    (resps : List (List Char)) (r : List Char)
    (ranking : Option (List QueryFilter) → List RetrievedObject)
    (e f : Filters)
    (hall : ∀ r' ∈ resps, filtersPresent (get_filters r') = false)
    (hcur : filtersPresent (get_filters r) = false) :
    runConversation initialEntities resps = initialEntities ∧
    (chatTurn (runConversation initialEntities resps) r).2 = RetrievalPath.skipped ∧
    chatTurnDocs ranking (runConversation initialEntities resps) r = [] ∧
    (filtersPresent f = true → updateEntities e f = f) ∧
    (filtersPresent f = false → updateEntities e f = e) ∧
    (entitiesTruthy e = true → entitiesTruthy (updateEntities e f) = true) := by
  have hconv : runConversation initialEntities resps = initialEntities :=
    runConversation_all_empty initialEntities resps hall
  have hupd : updateEntities initialEntities (get_filters r) = initialEntities := by
    rw [updateEntities, if_neg (by rw [hcur]; simp)]
  have htruthy : entitiesTruthy initialEntities = false := by
    simp [entitiesTruthy, initialEntities]
  refine ⟨hconv, ?_, ?_, ?_, ?_, ?_⟩
  · rw [hconv]
    simp only [chatTurn, hupd]
    rw [if_neg (by rw [htruthy]; simp)]
  · rw [hconv]
    simp only [chatTurnDocs, hupd]
    rw [if_neg (by rw [htruthy]; simp)]
  · intro hp
    rw [updateEntities, if_pos hp]
  · intro hp
    rw [updateEntities, if_neg (by rw [hp]; simp)]
  · intro he
    rw [updateEntities]
    by_cases hp : filtersPresent f
    · rw [if_pos hp, ← filtersPresent_eq_entitiesTruthy]
      exact hp
    · rw [if_neg hp]
      exact he

/-- C5 (amended): when the extraction response carries the literal `none`
(any case, stripped) in both the brands and models slots, the resulting
filter lists are both empty and `none` never becomes a filter value: the
session entity state is left unchanged, retrieval is skipped when the
session has no prior entities, and with prior entities the turn queries
with those prior entities — i.e. it takes the path dictated by the prior
state, which is the filtered path when prior entities exist. -/
theorem c5_none_means_no_filter_values
    (e : Filters) (resp g1 g2 : List Char)
    (hb : reSearchGroup (openTag ("brands".data)) (closeTag ("brands".data)) resp = some g1)
    (hbn : pyLower (trimChars g1) = "none".data)
    (hm : reSearchGroup (openTag ("models".data)) (closeTag ("models".data)) resp = some g2)
    (hmn : pyLower (trimChars g2) = "none".data) :
    (get_filters resp).brands = [] ∧
    (get_filters resp).models = [] ∧
    (chatTurn e resp).1 = e ∧
    (entitiesTruthy e = false → (chatTurn e resp).2 = RetrievalPath.skipped) ∧
    (entitiesTruthy e = true → (chatTurn e resp).2 = get_documentation_path e) := by
  have hbrands : extract_tag_values resp ("brands".data) = [] := by
    rw [extract_tag_values, hb]
    simp only [hbn, if_pos]
  have hmodels : extract_tag_values resp ("models".data) = [] := by
    rw [extract_tag_values, hm]
    simp only [hmn, if_pos]
  have hfb : (get_filters resp).brands = [] := by rw [get_filters]; exact hbrands
  have hfm : (get_filters resp).models = [] := by rw [get_filters]; exact hmodels
  have hpres : filtersPresent (get_filters resp) = false := by
    rw [filtersPresent, hfb, hfm]
    simp
  have hupd : updateEntities e (get_filters resp) = e := by
    rw [updateEntities, if_neg (by rw [hpres]; simp)]
  refine ⟨hfb, hfm, ?_, ?_, ?_⟩
  · rw [chatTurn_fst, hupd]
  · intro he
    simp only [chatTurn, hupd]
    rw [if_neg (by rw [he]; simp)]
  · intro he
    simp only [chatTurn, hupd]
    rw [if_pos (by rw [he])]

/-- C5 counterexample: with prior session entities (brand `moog`) and an
extraction response answering `None`/`none` for both slots, the turn's
filter lists are empty but the turn takes the filtered retrieval path —
filtered by the prior entities — not the skipped or unfiltered path the
claim asserts. -/
theorem c5_counterexample_prior_entities_filtered_path :
    (get_filters ("<brands>None</brands><models>none</models>".data)).brands = [] ∧
    (get_filters ("<brands>None</brands><models>none</models>".data)).models = [] ∧
    (chatTurn { brands := [("moog".data)], models := [], reasoning := [] }
        ("<brands>None</brands><models>none</models>".data)).2 =
      RetrievalPath.filteredQuery [QueryFilter.brandContainsAny [("moog".data)]] ∧
    ¬((chatTurn { brands := [("moog".data)], models := [], reasoning := [] }
        ("<brands>None</brands><models>none</models>".data)).2 =
          RetrievalPath.skipped ∨
      (chatTurn { brands := [("moog".data)], models := [], reasoning := [] }
        ("<brands>None</brands><models>none</models>".data)).2 =
          RetrievalPath.unfilteredQuery) := by
  refine ⟨?_, ?_, ?_, ?_⟩ <;> decide

/- ===== Witnesses ===== -/

/-- Witness for C2 at a concrete store, uuid and directory set. -/
theorem c2_indexer_insert_idempotent_witness :
    ((storeInsert
        [(JVal.str "u",
          (⟨JVal.vecTok 0, mkProperties ⟨none, none, none, none⟩ (JVal.str "c")⟩ : StoredObject))]
        (JVal.str "u")
        ⟨JVal.vecTok 2, mkProperties ⟨none, none, none, none⟩ (JVal.str "c")⟩).length =
      [(JVal.str "u",
        (⟨JVal.vecTok 0, mkProperties ⟨none, none, none, none⟩ (JVal.str "c")⟩ : StoredObject))].length ∧
      assocGet (storeInsert
        [(JVal.str "u",
          (⟨JVal.vecTok 0, mkProperties ⟨none, none, none, none⟩ (JVal.str "c")⟩ : StoredObject))]
        (JVal.str "u")
        ⟨JVal.vecTok 2, mkProperties ⟨none, none, none, none⟩ (JVal.str "c")⟩) (JVal.str "u") =
        some ⟨JVal.vecTok 2, mkProperties ⟨none, none, none, none⟩ (JVal.str "c")⟩) ∧
    (load_embeddings (load_embeddings []
        [⟨some ⟨none, none, none, none⟩,
          [[("id", JVal.str "u"), ("embeddings", JVal.vecTok 1), ("content", JVal.str "c")]]⟩])
      [⟨some ⟨none, none, none, none⟩,
        [[("id", JVal.str "u"), ("embeddings", JVal.vecTok 1), ("content", JVal.str "c")]]⟩]).length =
    (load_embeddings []
      [⟨some ⟨none, none, none, none⟩,
        [[("id", JVal.str "u"), ("embeddings", JVal.vecTok 1), ("content", JVal.str "c")]]⟩]).length := by
  have h := c2_indexer_insert_idempotent []
    [⟨some ⟨none, none, none, none⟩,
      [[("id", JVal.str "u"), ("embeddings", JVal.vecTok 1), ("content", JVal.str "c")]]⟩]
  exact ⟨h.1
      [(JVal.str "u",
        ⟨JVal.vecTok 0, mkProperties ⟨none, none, none, none⟩ (JVal.str "c")⟩)]
      (JVal.str "u")
      ⟨JVal.vecTok 2, mkProperties ⟨none, none, none, none⟩ (JVal.str "c")⟩ (by decide),
    h.2⟩

/-- Witness for C4 at a concrete two-turn conversation with empty
extractions and a concrete non-empty replacement. -/
theorem c4_entity_gate_witness :
    (chatTurn (runConversation initialEntities [[]]) []).2 = RetrievalPath.skipped ∧
    chatTurnDocs (fun _ => []) (runConversation initialEntities [[]]) [] = [] ∧
    updateEntities initialEntities
        { brands := [("korg".data)], models := [], reasoning := [] } =
      { brands := [("korg".data)], models := [], reasoning := [] } := by
  have h := c4_entity_gate_and_replace_policy [[]] [] (fun _ => [])
    initialEntities { brands := [("korg".data)], models := [], reasoning := [] }
    (by
      intro r' hr'
      simp only [List.mem_singleton] at hr'
      subst hr'
      decide)
    (by decide)
  exact ⟨h.2.1, h.2.2.1, h.2.2.2.1 (by decide)⟩

/-- Witness for C5 at a concrete both-`none` extraction response on a
fresh session. -/
theorem c5_none_witness :
    (get_filters ("<brands>None</brands><models>none</models>".data)).brands = [] ∧
    (get_filters ("<brands>None</brands><models>none</models>".data)).models = [] ∧
    (chatTurn initialEntities ("<brands>None</brands><models>none</models>".data)).2 =
      RetrievalPath.skipped := by
  have h := c5_none_means_no_filter_values initialEntities
    ("<brands>None</brands><models>none</models>".data) ("None".data) ("none".data)
    (by decide) (by decide) (by decide) (by decide)
  exact ⟨h.1, h.2.1, h.2.2.2.1 (by decide)⟩

/-- Witness for C7 at concrete mixed-case metadata with keywords. -/
theorem c7_lowercase_witness :
    (mkProperties ⟨some ("MoOg".data), some ("Sub37".data), some ("SYNTH".data),
        some [("Analog".data), ("BASS".data)]⟩ (JVal.str "x")).brand =
      pyLower ("MoOg".data) ∧
    (mkProperties ⟨some ("MoOg".data), some ("Sub37".data), some ("SYNTH".data),
        some [("Analog".data), ("BASS".data)]⟩ (JVal.str "x")).keywords =
      some (pyLower (joinComma [("Analog".data), ("BASS".data)])) := by
  have h := c7_stored_properties_lowercase
    ⟨some ("MoOg".data), some ("Sub37".data), some ("SYNTH".data),
      some [("Analog".data), ("BASS".data)]⟩ (JVal.str "x")
  exact ⟨h.2.2.2.1, (h.2.2.2.2.2.2 [("Analog".data), ("BASS".data)] rfl).1⟩

/-- Witness for C8 at a concrete one-table document and a concrete
table-free document. -/
theorem c8_table_pass_witness :
    ((process_document "f.md" (fun _ => "id") (fun _ => EnrichResult.ok "ctx") (fun _ => "t")
        (fun _ => "id") (fun _ => EnrichResult.ok "ctx") (fun _ => "t")
        [⟨"Table", "tbl", "rawhtml"⟩]
        [⟨"NarrativeText", "hello", ""⟩, ⟨"TableChunk", "frag", ""⟩]).filter
          (fun r => r.category = "Table")).length = 1 ∧
    ¬((⟨"id", "f.md", "NarrativeText", "hello", "ctx", none, "t"⟩ : ChunkData).category = "Table" ∨
      (⟨"id", "f.md", "NarrativeText", "hello", "ctx", none, "t"⟩ : ChunkData).category = "TableChunk") := by
  have h := c8_table_pass_exactly_once "f.md"
    (fun _ => "id") (fun _ => "id") (fun _ => "t") (fun _ => "t")
    (fun _ => EnrichResult.ok "ctx") (fun _ => EnrichResult.ok "ctx")
    [⟨"Table", "tbl", "rawhtml"⟩]
    [⟨"NarrativeText", "hello", ""⟩, ⟨"TableChunk", "frag", ""⟩]
  exact ⟨h.1.trans (by decide),
    h.2.2.1 ⟨"id", "f.md", "NarrativeText", "hello", "ctx", none, "t"⟩ (by decide)⟩

/-- Witness for C9 at a concrete complete record (frame preservation) and
a concrete incomplete record (skip without embedding). -/
theorem c9_embedder_frame_witness :
    assocGet (assocSet [("content", JVal.str "c"), ("contextualization", JVal.str "x")]
        "embeddings" (JVal.vecTok 7)) "content" =
      assocGet [("content", JVal.str "c"), ("contextualization", JVal.str "x")] "content" ∧
    embedFile [("content", JVal.str "c")] EmbedOutcome.apiError "orig.json" = none := by
  have h := c9_embedder_frame
    [("content", JVal.str "c"), ("contextualization", JVal.str "x")] 7 "orig.json"
    EmbedOutcome.apiError
  have h2 := c9_embedder_frame [("content", JVal.str "c")] 7 "orig.json" EmbedOutcome.apiError
  exact ⟨(h.1 (by decide) (by decide)).2.2 "content" (by decide),
    (h2.2 (Or.inr (by decide))).1⟩

/-- Witness for C10 at a concrete record missing only `id`. -/
theorem c10_missing_id_witness :
    embedFile [("content", JVal.str "c"), ("contextualization", JVal.str "x")]
        (EmbedOutcome.ok 3) "chunk7.json" =
      some ("chunk7.json",
        assocSet [("content", JVal.str "c"), ("contextualization", JVal.str "x")]
          "embeddings" (JVal.vecTok 3)) ∧
    idxProcessFile ⟨none, none, none, none⟩ []
        (assocSet [("content", JVal.str "c"), ("contextualization", JVal.str "x")]
          "embeddings" (JVal.vecTok 3)) = [] := by
  have h := c10_missing_id_embedded_but_rejected_by_indexer
    [("content", JVal.str "c"), ("contextualization", JVal.str "x")] 3 "chunk7.json"
    ⟨none, none, none, none⟩ [] (by decide) (by decide) (by decide)
  exact ⟨h.1, h.2.2.2⟩
